import Mathlib

/-!
Verification of the envhaven Connection & Sync Orchestrator CLI.

The development shallowly embeds the relevant TypeScript sources:

* `src/cli/src/ssh/keys.ts`   — SSH key discovery/analysis (`analyzeKeys`, `hasUsableKey`)
* `src/cli/src/ssh/config.ts` — SSH host-config synthesis (`generateHostConfig`,
  `writeHostConfig`, `removeHostConfig`)
* `src/cli/src/sync/mutagen.ts` — sync session controller (`getSyncSessionName`,
  `simpleHash`, `stopSync`, `getSyncStatus`, `parseSessionStatus`)
* `src/cli/src/sync/ignore.ts` — ignore-pattern assembly (`parseIgnoreFile`,
  `getAllIgnorePatterns`)
* `src/cli/src/commands/connect.ts` — the probe / host-key-rotation fragment of `connect`
* the CLI entry point — `RESERVED_COMMANDS` dispatch (`main`)

Effectful inputs (file contents, subprocess results, prompt answers, the ssh agent)
are passed as explicit parameters, so every function here is a pure, executable
translation of the corresponding source function.

Conventions for the SSH-config model: a configuration text is represented by its
list of lines, i.e. by `s.splitOn "\n"` of the raw string.  This representation is
a bijection: the raw text is recovered by interleaving `"\n"` between entries, so a
trailing newline in the raw text shows up as a trailing `""` entry.  JavaScript
`String.prototype.trim`, `includes`, `startsWith`, `split` and the host-block regex
of `config.ts` are modelled on this representation; each model definition documents
the correspondence.
-/

/-! ## Basic string helpers (JS `startsWith`, `includes`, `trim`) -/

/-- Model of a prefix test on character lists: `leadsWith p l` is true iff `p` is an
initial segment of `l` (JS `String.prototype.startsWith`). -/
def leadsWith : List Char → List Char → Bool
  | [], _ => true
  | _ :: _, [] => false
  | a :: as, b :: bs => a == b && leadsWith as bs

/-- Model of JS `String.prototype.includes`: `occursIn sub l` is true iff the
character list `sub` occurs contiguously inside `l`. -/
def occursIn (sub : List Char) : List Char → Bool
  | [] => leadsWith sub []
  | l@(_ :: rest) => leadsWith sub l || occursIn sub rest

/-- String wrapper for `occursIn`: JS `s.includes sub`. -/
def strIncludes (s sub : String) : Bool := occursIn sub.data s.data

/-- Whitespace-only test for one line (used to model what JS `trim` erases). -/
def isWsOnly (s : String) : Bool := s.data.all (fun c => c.isWhitespace)

/-- Remove leading whitespace characters of a string (left half of JS `trim`). -/
def trimL (s : String) : String := String.mk (s.data.dropWhile (fun c => c.isWhitespace))

/-- Remove trailing whitespace characters of a string (right half of JS `trim`). -/
def trimR (s : String) : String :=
  String.mk ((s.data.reverse.dropWhile (fun c => c.isWhitespace)).reverse)

/-- Model of JS `String.prototype.trim` on a single line. -/
def trimBoth (s : String) : String := trimL (trimR s)

/-- Model of JS `String.prototype.toLowerCase` (character-wise lowering; the inputs it
is applied to — status keywords and prompt answers — are ASCII). -/
def strToLower (s : String) : String := String.mk (s.data.map Char.toLower)

/-- Splitting scan for `jsSplit`: `acc` holds the reversed characters of the chunk
being built.  At each position the separator is either consumed (ending a chunk) or
one character moves into the chunk.  The first argument is fuel; recursion is
structural on it so that the function evaluates inside the kernel, and every call
from `jsSplit` supplies enough fuel for the scan to finish (the input shrinks at
every step since the separator is non-empty there). -/
def jsSplitAux (sep : List Char) : Nat → List Char → List Char → List (List Char)
  | _, [], acc => [acc.reverse]
  | 0, l, acc => [acc.reverse ++ l]
  | fuel + 1, c :: rest, acc =>
    if leadsWith sep (c :: rest) then
      acc.reverse :: jsSplitAux sep fuel ((c :: rest).drop sep.length) []
    else jsSplitAux sep fuel rest (c :: acc)

/-- Model of JS `String.prototype.split` with a non-empty string separator: the text is
cut at every (leftmost, non-overlapping) occurrence of the separator.  Agrees with
`String.splitOn` on the separators used by the sources (`"\n"`, `"|"`, `";;"`). -/
def jsSplit (s sep : String) : List String :=
  if sep.data = [] then [s]
  else (jsSplitAux sep.data s.data.length s.data []).map String.mk

/-! ## Key usability analyzer (`src/cli/src/ssh/keys.ts`) -/

/-- Source: interface `SshKeyInfo` in `keys.ts`. -/
structure SshKeyInfo where
  privateKeyPath : String
  publicKeyPath : String
  publicKey : String
deriving DecidableEq

/-- Source: interface `KeyAnalysis` in `keys.ts`. -/
structure KeyAnalysis where
  key : SshKeyInfo
  encrypted : Bool
  inAgent : Bool
  usable : Bool
deriving DecidableEq

/-- Inputs that `keys.ts` obtains from the filesystem / subprocesses:
`keys` is the result of `findExistingKeys`, `encryptedF p` the result of
`isKeyEncrypted p`, `fingerprintF p` the result of `getKeyFingerprint p`
(`none` models the `null` returned when `ssh-keygen -lf` fails),
`agentFingerprints` the result of `getAgentFingerprints`, and `havenKey`
the result of `hasHavenKey` (existence of the managed key pair). -/
structure KeyEnv where
  keys : List SshKeyInfo
  encryptedF : String → Bool
  fingerprintF : String → Option String
  agentFingerprints : List String
  havenKey : Bool

/-- Source: `analyzeKeys` in `keys.ts` (lines 295–311).  For each discovered key it
computes `encrypted`, `inAgent` (fingerprint membership in the agent's list, `false`
when the fingerprint is unavailable) and `usable = !encrypted || inAgent`. -/
def analyzeKeys (env : KeyEnv) : List KeyAnalysis :=
  env.keys.map fun key =>
    let encrypted := env.encryptedF key.privateKeyPath
    let fingerprint := env.fingerprintF key.privateKeyPath
    let inAgent := match fingerprint with
      | some fp => env.agentFingerprints.contains fp
      | none => false
    let usable := !encrypted || inAgent
    ⟨key, encrypted, inAgent, usable⟩

/-- Source: `hasUsableKey` in `keys.ts` (lines 313–318): the managed (haven) key, when
present, short-circuits to `true` before any analysis; otherwise some discovered key
must be usable. -/
def hasUsableKey (env : KeyEnv) : Bool :=
  if env.havenKey then true
  else (analyzeKeys env).any (fun a => a.usable)

/-! ## Sync session controller (`src/cli/src/sync/mutagen.ts`) -/

/-- Result of one engine subprocess invocation, as produced by `runMutagen`
(`exitCode`, trimmed `stdout`, trimmed `stderr`). -/
structure CommandResult where
  exitCode : Nat
  stdout : String
  stderr : String
deriving DecidableEq

/-- JS 32-bit wrap-around used by `|`, `&` and `<<`: reduce an integer to the
range `[-2^31, 2^31)`. -/
def toInt32 (n : Int) : Int :=
  let m := n % 4294967296
  if m < 2147483648 then m else m - 4294967296

/-- One loop iteration of `simpleHash`:
`hash = ((hash << 5) - hash) + char; hash = hash & hash;` where `<<` wraps its
result to a signed 32-bit integer and `& hash` wraps the sum likewise. -/
def hashStep (h : Int) (c : Nat) : Int := toInt32 (toInt32 (h * 32) - h + c)

/-- Character of one base-36 digit (`0`–`9`, `a`–`z`), as produced by JS
`Number.prototype.toString(36)`. -/
def base36digit (d : Nat) : Char := if d < 10 then Char.ofNat (48 + d) else Char.ofNat (87 + d)

/-- Base-36 digit expansion accumulator.  The first argument is fuel (structural
recursion, so the kernel can evaluate); `toBase36` supplies enough for every input
since the number of digits of `n` is at most `n`. -/
def toBase36Aux : Nat → Nat → List Char → List Char
  | 0, n, acc => base36digit (n % 36) :: acc
  | fuel + 1, n, acc =>
    if n < 36 then base36digit n :: acc
    else toBase36Aux fuel (n / 36) (base36digit (n % 36) :: acc)

/-- JS `n.toString(36)` for a non-negative integer. -/
def toBase36 (n : Nat) : String := String.mk (toBase36Aux n n [])

/-- Source: `simpleHash` in `mutagen.ts` (lines 21–29).  Characters are taken as their
code points (identical to `charCodeAt` on basic-plane text). -/
def simpleHash (str : String) : String :=
  toBase36 (Int.natAbs (str.data.foldl (fun h c => hashStep h c.toNat) 0))

/-- Source: `getSyncSessionName` in `mutagen.ts` (lines 16–19).  `canon` is the
`canonicalPath` helper of `utils/paths.ts` (not under `src/`), passed as an explicit
function parameter. -/
def getSyncSessionName (canon : String → String) (localPath : String) : String :=
  "haven-" ++ simpleHash (canon localPath)

/-- The closed status enum of `SyncStatus["status"]` in `mutagen.ts`. -/
inductive SyncStatusKind where
  | watching | scanning | staging | reconciling | saving | disconnected | halted | unknown
deriving DecidableEq

/-- Source: type `SyncStatus` in `mutagen.ts`. -/
structure SyncStatus where
  status : SyncStatusKind
  conflicts : List String
  errors : List String
deriving DecidableEq

/-- Source: `parseSessionStatus` in `mutagen.ts` (lines 171–185).  `none` models the
`undefined` argument; the empty string is falsy in JS and also yields `unknown`. -/
def parseSessionStatus : Option String → SyncStatusKind
  | none => .unknown
  | some s =>
    if s = "" then .unknown
    else
      let statusLower := strToLower s
      if strIncludes statusLower "watching" then .watching
      else if strIncludes statusLower "scanning" then .scanning
      else if strIncludes statusLower "staging" then .staging
      else if strIncludes statusLower "reconciling" then .reconciling
      else if strIncludes statusLower "saving" then .saving
      else if strIncludes statusLower "halted" then .halted
      else if strIncludes statusLower "disconnected" then .disconnected
      else .unknown

/-- The keyword priority order stated by the spec for status classification. -/
def STATUS_PRIORITY : List (String × SyncStatusKind) :=
  [("watching", .watching), ("scanning", .scanning), ("staging", .staging),
   ("reconciling", .reconciling), ("saving", .saving), ("halted", .halted),
   ("disconnected", .disconnected)]

/-- Source: `stopSync` in `mutagen.ts` (lines 94–102), applied to the result of the
`sync terminate` invocation.  `.error` models the thrown exception. -/
def stopSync (r : CommandResult) : Except String Unit :=
  if r.exitCode ≠ 0 ∧ strIncludes r.stderr "does not exist" = false then
    .error ("Failed to stop sync: " ++ r.stderr)
  else .ok ()

/-- Model of JS `parseInt(s, 10)`: skip leading whitespace, optional sign, then the
longest digit prefix; `none` models `NaN`. -/
def jsParseInt (s : String) : Option Int :=
  let digitsPrefix : List Char → Option Nat := fun l =>
    let ds := l.takeWhile (fun c => c.isDigit)
    if ds = [] then none
    else some (ds.foldl (fun a c => a * 10 + (c.toNat - 48)) 0)
  match (trimL s).data with
  | '-' :: rest => (digitsPrefix rest).map (fun n => -(n : Int))
  | '+' :: rest => (digitsPrefix rest).map (fun n => (n : Int))
  | l => (digitsPrefix l).map (fun n => (n : Int))

/-- Per-line parsing of one `sync list` template line once its session name matched:
fields are `Name|StatusDescription|ConflictCount|AlphaProblems|BetaProblems`
(`mutagen.ts` lines 147–164). -/
def mkStatusFromFields (fields : List String) : SyncStatus :=
  let statusDesc := fields.get? 1
  let conflictCount := fields.get? 2
  let alphaProblems := (fields.get? 3).getD ""
  let betaProblems := (fields.get? 4).getD ""
  let status := parseSessionStatus statusDesc
  let ccStr := match conflictCount with
    | none => "0"
    | some c => if c = "" then "0" else c
  let conflicts := match jsParseInt ccStr with
    | some n => if n > 0 then [toString n ++ " conflict(s) detected"] else []
    | none => []
  let errors :=
    (if alphaProblems ≠ "" then (jsSplit alphaProblems ";;").filter (fun x => x ≠ "") else [])
    ++ (if betaProblems ≠ "" then (jsSplit betaProblems ";;").filter (fun x => x ≠ "") else [])
  ⟨status, conflicts, errors⟩

/-- Linear scan of the parsed `sync list` lines for the derived session name
(the `for`-loop of `getSyncStatus`). -/
def findSession (sessionName : String) : List String → SyncStatus
  | [] => ⟨.disconnected, [], []⟩
  | line :: rest =>
    let fields := jsSplit line "|"
    let name := fields.getD 0 ""
    if name = sessionName then mkStatusFromFields fields
    else findSession sessionName rest

/-- Source: `getSyncStatus` in `mutagen.ts` (lines 135–169), applied to the result of
the `sync list --template …` invocation.  The function is total: no input makes it
raise. -/
def getSyncStatus (canon : String → String) (localPath : String) (r : CommandResult) :
    SyncStatus :=
  let sessionName := getSyncSessionName canon localPath
  if r.exitCode ≠ 0 then ⟨.disconnected, [], [r.stderr]⟩
  else findSession sessionName ((jsSplit r.stdout "\n").filter (fun l => l ≠ ""))

/-! ## Ignore patterns (`src/cli/src/sync/ignore.ts`) -/

/-- Source: `DEFAULT_IGNORE_PATTERNS` in `ignore.ts`. -/
def DEFAULT_IGNORE_PATTERNS : List String :=
  [".git/", "node_modules/", ".pnpm-store/", "__pycache__/", "*.pyc", ".pytest_cache/",
   ".mypy_cache/", "dist/", "build/", ".next/", ".nuxt/", ".output/", "target/",
   ".gradle/", ".idea/", "*.log", "*.tmp", "*.swp", "*.swo", ".DS_Store", ".haven/"]

/-- Source: `parseIgnoreFile` in `ignore.ts` (lines 33–38): split on newlines, trim each
line, drop empties and `#` comments. -/
def parseIgnoreFile (content : String) : List String :=
  ((jsSplit content "\n").map trimBoth).filter
    (fun line => line.length != 0 && !(leadsWith ['#'] line.data))

/-- Source: `loadGitignorePatterns` in `ignore.ts`; the project ignore file's content is
passed explicitly, `none` modelling a missing file. -/
def loadGitignorePatterns (gitignore : Option String) : List String :=
  match gitignore with
  | none => []
  | some content => parseIgnoreFile content

/-- Model of `Array.from(new Set(l))`: keep the first occurrence of each element, in
insertion order. -/
def dedupKeepFirst : List String → List String
  | [] => []
  | x :: xs => x :: (dedupKeepFirst xs).filter (fun y => y ≠ x)

/-- Source: `getAllIgnorePatterns` in `ignore.ts` (lines 55–61). -/
def getAllIgnorePatterns (gitignore : Option String) (useGitignore : Bool) : List String :=
  let gitignorePatterns := if useGitignore then loadGitignorePatterns gitignore else []
  dedupKeepFirst (DEFAULT_IGNORE_PATTERNS ++ gitignorePatterns)

/-! ## Connect probe phase (`src/cli/src/commands/connect.ts`, lines 290–348) -/

/-- Outcome of the probe phase of `connect`: either control reaches the
start-sync stage, or the process exits non-zero. -/
inductive ProbeOutcome where
  | proceedToSync | fatal
deriving DecidableEq

/-- Observable trace of the probe phase: its outcome, how many times the cached
host key was purged (`removeHostKey` calls), and how many probes (`testConnection`
calls) ran. -/
structure ProbeTrace where
  outcome : ProbeOutcome
  hostKeyPurges : Nat
  probeAttempts : Nat
deriving DecidableEq

/-- The probe error substring that selects the host-key-rotation recovery path. -/
def hostKeyErrorMsg : String := "Host key verification failed"

/-- Source: the probe phase of `connect` (`connect.ts` lines 290–348).
`firstProbe` is the result of the first `testConnection` (`none` = success,
`some err` = failure with stderr `err`); `answer` is the operator's reply to the
reconnect prompt (default `"Y"`); `retryProbe` is the result of the retry probe,
consulted only on the host-key-rotation path.  The code purges the host key and
retries exactly once, only when the first probe's error contains
`hostKeyErrorMsg` and the answer lowercases to something other than `"n"`. -/
def probePhase (firstProbe : Option String) (answer : String) (retryProbe : Option String) :
    ProbeTrace :=
  match firstProbe with
  | none => ⟨.proceedToSync, 0, 1⟩
  | some err =>
    if strIncludes err hostKeyErrorMsg then
      if strToLower answer = "n" then ⟨.fatal, 0, 1⟩
      else
        match retryProbe with
        | none => ⟨.proceedToSync, 1, 2⟩
        | some _ => ⟨.fatal, 1, 2⟩
    else ⟨.fatal, 0, 1⟩

/-! ## CLI dispatch (entry point, `RESERVED_COMMANDS` and `main`) -/

/-- Source: `RESERVED_COMMANDS` of the CLI entry point. -/
def RESERVED_COMMANDS : List String :=
  ["connect", "disconnect", "status", "help", "--help", "-h", "--version", "-V"]

/-- What `main` decides to do with the argument vector. -/
inductive DispatchAction where
  | showHelp
  | remoteCommand (args : List String)
  | commanderParse
deriving DecidableEq

/-- Source: `main` of the CLI entry point (lines 111–132).  Empty argv shows help;
a literal `--` forwards the remaining arguments; a non-empty first argument that is
neither reserved nor flag-like is forwarded together with the rest; everything else
goes to the commander parser (which handles the reserved subcommands and flags). -/
def mainDispatch (args : List String) : DispatchAction :=
  match args with
  | [] => .showHelp
  | firstArg :: rest =>
    if firstArg = "--" then .remoteCommand rest
    else if firstArg ≠ "" ∧ ¬ RESERVED_COMMANDS.contains firstArg
            ∧ leadsWith ['-'] firstArg.data = false then
      .remoteCommand (firstArg :: rest)
    else .commanderParse

/-! ## SSH host-config synthesis (`src/cli/src/ssh/config.ts`)

A configuration text is its list of lines (see the header).  The removal regex

  `^Host <alias>\n(?:(?!^Host ).*\n?)*`   (flags `gm`)

matches, at a line start, the exact line `Host <alias>` followed by its newline, then
consumes whole lines (each with its newline when present) as long as they do not begin
a new `Host ` block; with the `g` flag every such block is removed.  On the line
representation this is `stripBlocks` below: a `Host <alias>` line opens a block only
when a further line exists (the regex requires the `\n`), block mode consumes lines
until one starts with `"Host "`, and a block that runs to the end of the input leaves
the preceding newline behind, i.e. a final `""` entry. -/

/-- The line `Host <alias>` that opens the block of `alias`. -/
def hostLine (al : String) : String := "Host " ++ al

/-- A line that begins a (any) `Host ` block: the regex lookahead `(?!^Host )`. -/
def isHostStart (s : String) : Bool := leadsWith "Host ".data s.data

/-- Line-level model of one `content.replace(hostPattern, "")` pass, `gm` flags.
The `Bool` is block mode: `true` while consuming the tail of a matched block.
In block mode the final entry of the list (raw text after the last newline) is
consumed but the preceding newline survives, hence the `[""]`. -/
def stripGo (al : String) : Bool → List String → List String
  | true, [] => [""]
  | false, [] => []
  | true, x :: xs =>
    if isHostStart x then
      if x = hostLine al ∧ xs ≠ [] then stripGo al true xs
      else x :: stripGo al false xs
    else stripGo al true xs
  | false, x :: xs =>
    if x = hostLine al ∧ xs ≠ [] then stripGo al true xs
    else x :: stripGo al false xs

/-- Removal of every `Host <alias>` block, as performed by the regex `replace` in
`writeHostConfig` and `removeHostConfig`. -/
def stripBlocks (al : String) (content : List String) : List String :=
  stripGo al false content

/-- Modelled from the spec: the declarative matching rule of §4.3 — "a block begins at
a line matching `Host <alias>` exactly and extends through all subsequent lines until
a line beginning a new `Host ` block or end-of-file".  Unlike `stripGo` it has no
newline bookkeeping: it is stated on the lines of the text proper. -/
def specGo (al : String) : Bool → List String → List String
  | _, [] => []
  | true, x :: xs =>
    if isHostStart x then
      if x = hostLine al then specGo al true xs
      else x :: specGo al false xs
    else specGo al true xs
  | false, x :: xs =>
    if x = hostLine al then specGo al true xs
    else x :: specGo al false xs

/-- Modelled from the spec: remove every `Host <alias>` block following the §4.3
matching rule. -/
def specRemove (al : String) (content : List String) : List String :=
  specGo al false content

/-- Concatenation of two raw texts on the line representation: the last line of the
first text is glued to the first line of the second (no newline is inserted). -/
def catLines : List String → List String → List String
  | [], B => B
  | [a], [] => [a]
  | [a], b :: bs => (a ++ b) :: bs
  | a :: as, B => a :: catLines as B

/-- Drop trailing whitespace-only lines (part of JS `trim` of the whole text). -/
def dropTrailingWs (L : List String) : List String :=
  (L.reverse.dropWhile isWsOnly).reverse

/-- Right-trim the last line of a list. -/
def trimLastRight : List String → List String
  | [] => []
  | [x] => [trimR x]
  | x :: y :: xs => x :: trimLastRight (y :: xs)

/-- Model of JS `String.prototype.trim` on a whole text given by its lines: leading
and trailing whitespace-only lines disappear together with their newlines, and the
first / last surviving lines lose their leading / trailing whitespace.  The empty
text is `[""]`. -/
def trimLines (L : List String) : List String :=
  match dropTrailingWs (L.dropWhile isWsOnly) with
  | [] => [""]
  | [x] => [trimBoth x]
  | x :: y :: xs => trimL x :: trimLastRight (y :: xs)

/-- The fixed hardened tail and per-connection body of a generated host block,
everything between the `Host` line and the final newline. -/
def gbBody (host : String) (port : Nat) (user : String) (keyPaths : List String) :
    List String :=
  ["  HostName " ++ host, "  Port " ++ toString port, "  User " ++ user]
  ++ keyPaths.map (fun p => "  IdentityFile " ++ p)
  ++ ["  ForwardAgent no", "  ForwardX11 no", "  StrictHostKeyChecking accept-new",
      "  ServerAliveInterval 5"]
  ++ ["  ServerAliveCountMax 3"]

/-- Source: `generateHostConfig` in `config.ts` (lines 5–20); `keyPaths` is the result
of `getAllKeyPaths()` passed explicitly.  The rendered text ends with a newline,
hence the trailing `""`. -/
def generateHostConfig (al host : String) (port : Nat) (user : String)
    (keyPaths : List String) : List String :=
  hostLine al :: gbBody host port user keyPaths ++ [""]

/-- Source: `writeHostConfig` in `config.ts` (lines 22–37) on the line representation:
`(existing.replace(hostPattern, "").trim() + "\n\n" + newConfig).trim() + "\n"`.
A missing configuration file is the empty text `[""]`; the file is (re)written
unconditionally. -/
def writeHostConfig (al host : String) (port : Nat) (user : String)
    (keyPaths : List String) (content : List String) : List String :=
  let newConfig := generateHostConfig al host port user keyPaths
  let updatedContent := stripBlocks al content
  trimLines (catLines (trimLines updatedContent) (catLines ["", "", ""] newConfig)) ++ [""]

/-- Source: `removeHostConfig` in `config.ts` (lines 39–53).  `none` models a missing
configuration file.  When the stripped content trims to the empty text the write is
skipped (`if (updatedContent)`), so the file keeps its previous content; the file is
never deleted. -/
def removeHostConfig (al : String) (file : Option (List String)) :
    Option (List String) :=
  match file with
  | none => none
  | some existingContent =>
    let updatedContent := trimLines (stripBlocks al existingContent)
    if updatedContent = [""] then some existingContent
    else some (updatedContent ++ [""])

/-- Lines of the initial configuration that survive the write–write–rewrite sequence
of `writeHostConfig` for aliases `a` then `b` then `a`: the text is first cleaned by
the code's own strip-and-trim pass for `a`, then both aliases' blocks are removed
following the spec's matching rule.  A text whose first pass trims to empty leaves
no residue. -/
def residualLines (a b : String) (content : List String) : List String :=
  if trimLines (stripBlocks a content) = [""] then []
  else specRemove a (specRemove b (trimLines (stripBlocks a content) ++ [""]))

/-! ## Theorems -/

/-- C1: for every discovered key analyzed by `analyzeKeys`, the computed `usable` flag
equals `!encrypted || inAgent`; and when the managed (haven) key exists,
`hasUsableKey` returns `true` without regard to any analysis — the managed key is
always usable. -/
theorem analyzeKeys_usable_iff (env : KeyEnv) :
    ((analyzeKeys env).all fun a => a.usable == (!a.encrypted || a.inAgent)) = true
  ∧ ∀ (keys : List SshKeyInfo) (eF : String → Bool) (fF : String → Option String)
      (aF : List String), hasUsableKey ⟨keys, eF, fF, aF, true⟩ = true := by
  constructor
  · simp only [analyzeKeys, List.all_eq_true, List.mem_map]
    rintro a ⟨k, _, rfl⟩
    simp
  · intro keys eF fF aF
    simp [hasUsableKey]

/-- C4: `stopSync` succeeds exactly when the terminate invocation exited zero or its
stderr reports that the session does not exist; it raises exactly when the exit code
is non-zero for any other reason. -/
theorem stopSync_ok_iff (r : CommandResult) :
    stopSync r = .ok () ↔ (r.exitCode = 0 ∨ strIncludes r.stderr "does not exist" = true) := by
  unfold stopSync
  split_ifs with h
  · constructor
    · intro hc; cases hc
    · intro hc; rcases h with ⟨h1, h2⟩; rcases hc with hc | hc
      · exact absurd hc h1
      · rw [hc] at h2; cases h2
  · constructor
    · intro _
      by_cases he : r.exitCode = 0
      · exact Or.inl he
      · right
        by_contra hin
        exact h ⟨he, Bool.eq_false_iff.mpr fun hb => hin hb⟩
    · intro _; rfl

/-- C5: the status classifier maps a free-text description into the closed enum by
substring match in the fixed priority order watching, scanning, staging, reconciling,
saving, halted, disconnected — the earliest matching keyword wins — and returns
`unknown` for text matching none of them. -/
theorem parseSessionStatus_priority (s : String) :
    parseSessionStatus (some s) =
      ((STATUS_PRIORITY.find? fun kw => strIncludes (strToLower s) kw.1).map Prod.snd).getD
        .unknown := by
  by_cases h0 : s = ""
  · subst h0; decide
  · simp only [parseSessionStatus, if_neg h0, STATUS_PRIORITY, List.find?]
    by_cases h1 : strIncludes (strToLower s) "watching" = true
    · simp [h1]
    · rw [Bool.not_eq_true] at h1
      by_cases h2 : strIncludes (strToLower s) "scanning" = true
      · simp [h1, h2]
      · rw [Bool.not_eq_true] at h2
        by_cases h3 : strIncludes (strToLower s) "staging" = true
        · simp [h1, h2, h3]
        · rw [Bool.not_eq_true] at h3
          by_cases h4 : strIncludes (strToLower s) "reconciling" = true
          · simp [h1, h2, h3, h4]
          · rw [Bool.not_eq_true] at h4
            by_cases h5 : strIncludes (strToLower s) "saving" = true
            · simp [h1, h2, h3, h4, h5]
            · rw [Bool.not_eq_true] at h5
              by_cases h6 : strIncludes (strToLower s) "halted" = true
              · simp [h1, h2, h3, h4, h5, h6]
              · rw [Bool.not_eq_true] at h6
                by_cases h7 : strIncludes (strToLower s) "disconnected" = true
                · simp [h1, h2, h3, h4, h5, h6, h7]
                · rw [Bool.not_eq_true] at h7
                  simp [h1, h2, h3, h4, h5, h6, h7]

/-- C6: the session identifier equals the fixed prefix `"haven-"` followed by the
stable hash of the canonicalized local path, and as a pure function of the canonical
path it yields the same string for any two calls agreeing on that canonical path. -/
theorem getSyncSessionName_deterministic (canon : String → String) (p q : String) :
    getSyncSessionName canon p = "haven-" ++ simpleHash (canon p)
  ∧ (canon p = canon q → getSyncSessionName canon p = getSyncSessionName canon q) := by
  refine ⟨rfl, fun h => ?_⟩
  unfold getSyncSessionName
  rw [h]

/-- Witness for C6 at a concrete path (canonicalization instantiated by `id`). -/
theorem getSyncSessionName_deterministic_witness :
    getSyncSessionName id "/tmp/p" = "haven-" ++ simpleHash (id "/tmp/p")
  ∧ getSyncSessionName id "/tmp/p" = getSyncSessionName id "/tmp/p" :=
  ⟨(getSyncSessionName_deterministic id "/tmp/p" "/tmp/p").1,
   (getSyncSessionName_deterministic id "/tmp/p" "/tmp/p").2 rfl⟩

/-- A list deduplicated with `dedupKeepFirst` contains no duplicates. -/
theorem dedupKeepFirst_nodup (l : List String) : (dedupKeepFirst l).Nodup := by
  induction l with
  | nil => simp [dedupKeepFirst]
  | cons x xs ih =>
    simp only [dedupKeepFirst]
    refine List.Nodup.cons ?_ (ih.filter _)
    intro hx
    rcases List.mem_filter.mp hx with ⟨_, hne⟩
    simp at hne

/-- Deduplication preserves membership. -/
theorem mem_dedupKeepFirst (x : String) (l : List String) :
    x ∈ dedupKeepFirst l ↔ x ∈ l := by
  induction l with
  | nil => simp [dedupKeepFirst]
  | cons y ys ih =>
    simp only [dedupKeepFirst, List.mem_cons]
    constructor
    · rintro (rfl | hx)
      · exact Or.inl rfl
      · rcases List.mem_filter.mp hx with ⟨hx, _⟩
        exact Or.inr (ih.mp hx)
    · rintro (rfl | hx)
      · exact Or.inl rfl
      · by_cases hxy : x = y
        · exact Or.inl hxy
        · refine Or.inr (List.mem_filter.mpr ⟨ih.mpr hx, ?_⟩)
          simp [hxy]

/-- Deduplicating a list without duplicates changes nothing. -/
theorem dedupKeepFirst_eq_self (l : List String) (h : l.Nodup) : dedupKeepFirst l = l := by
  induction l with
  | nil => rfl
  | cons x xs ih =>
    simp only [dedupKeepFirst]
    rw [ih (List.Nodup.of_cons h)]
    congr 1
    apply List.filter_eq_self.mpr
    intro y hy
    have : y ≠ x := by
      rintro rfl
      exact (List.nodup_cons.mp h).1 hy
    simp [this]

/-- C7: with `useGitignore = false` the ignore patterns are exactly the fixed baseline
set, whatever the project ignore file contains; with `useGitignore = true` they are
the deduplicated union of the baseline and the project's ignore-file patterns, each
shared pattern appearing once. -/
theorem getAllIgnorePatterns_spec (g : Option String) :
    getAllIgnorePatterns g false = DEFAULT_IGNORE_PATTERNS
  ∧ (getAllIgnorePatterns g true).Nodup
  ∧ ∀ x, x ∈ getAllIgnorePatterns g true ↔
      (x ∈ DEFAULT_IGNORE_PATTERNS ∨ x ∈ loadGitignorePatterns g) := by
  refine ⟨?_, ?_, ?_⟩
  · show dedupKeepFirst (DEFAULT_IGNORE_PATTERNS ++ []) = DEFAULT_IGNORE_PATTERNS
    rw [List.append_nil]
    exact dedupKeepFirst_eq_self _ (by decide)
  · exact dedupKeepFirst_nodup _
  · intro x
    show x ∈ dedupKeepFirst (DEFAULT_IGNORE_PATTERNS ++ loadGitignorePatterns g) ↔ _
    rw [mem_dedupKeepFirst, List.mem_append]

/-- C8: in the connect state machine, a probe failure whose error mentions the
host-key message, followed by an operator confirmation, purges the cached host key
exactly once and retries the probe exactly once — a retry success proceeds to the
sync-start stage, a retry failure is terminal — while any other probe failure is
terminal with no purge and no retry, and a probe success proceeds directly. -/
theorem connect_hostKeyRotation (err answer : String) (retryProbe : Option String) :
    (∀ (ans : String) (r2 : Option String), probePhase none ans r2 = ⟨.proceedToSync, 0, 1⟩)
  ∧ (strIncludes err hostKeyErrorMsg = false →
      probePhase (some err) answer retryProbe = ⟨.fatal, 0, 1⟩)
  ∧ (strIncludes err hostKeyErrorMsg = true → strToLower answer = "n" →
      probePhase (some err) answer retryProbe = ⟨.fatal, 0, 1⟩)
  ∧ (strIncludes err hostKeyErrorMsg = true → strToLower answer ≠ "n" →
      probePhase (some err) answer retryProbe =
        ⟨(match retryProbe with | none => .proceedToSync | some _ => .fatal), 1, 2⟩) := by
  refine ⟨fun ans r2 => rfl, fun hf => ?_, fun ht hn => ?_, fun ht hn => ?_⟩
  · simp [probePhase, hf]
  · simp [probePhase, ht, hn]
  · cases retryProbe <;> simp [probePhase, ht, hn]

/-- Witness for C8: a concrete host-key failure with confirmation and successful
retry purges once, probes twice, and proceeds. -/
theorem connect_hostKeyRotation_witness :
    probePhase (some "ssh: Host key verification failed.") "" none =
      ⟨.proceedToSync, 1, 2⟩ := by
  have h := (connect_hostKeyRotation "ssh: Host key verification failed." "" none).2.2.2
  exact h (by decide) (by decide)

/-- C9 counterexample: the first argument `help` is not a flag and is not one of the
three subcommands the claim calls reserved, yet it is not forwarded as a remote
command — the code reserves it too. -/
theorem cli_dispatch_counterexample :
    mainDispatch ["help"] = .commanderParse
  ∧ mainDispatch ["help"] ≠ .remoteCommand ["help"]
  ∧ ¬ ("help" ∈ ["connect", "disconnect", "status"])
  ∧ leadsWith ['-'] "help".data = false :=
  ⟨by decide, by decide, by decide, by decide⟩

/-- C9 (amended): the non-flag reserved words are exactly connect, disconnect, status
and help (the flag-like entries of `RESERVED_COMMANDS` begin with `-` and are already
excluded by the flag check); every other non-empty non-flag first argument is
forwarded verbatim, and a literal `--` forwards the remaining arguments even when
the first of them names a reserved subcommand. -/
theorem cli_dispatch_amended (first : String) (rest : List String) :
    mainDispatch [] = .showHelp
  ∧ mainDispatch ("--" :: rest) = .remoteCommand rest
  ∧ (first ∉ ["connect", "disconnect", "status", "help"] →
      leadsWith ['-'] first.data = false → first ≠ "" →
      mainDispatch (first :: rest) = .remoteCommand (first :: rest))
  ∧ (first ∈ ["connect", "disconnect", "status", "help"] →
      mainDispatch (first :: rest) = .commanderParse) := by
  refine ⟨rfl, by simp [mainDispatch], fun h4 hflag hne => ?_, fun h4 => ?_⟩
  · have hndash : first ≠ "--" := by
      rintro rfl
      exact absurd hflag (by decide)
    have hres : ¬ RESERVED_COMMANDS.contains first = true := by
      intro hc
      have hmem : first ∈ RESERVED_COMMANDS := by
        simpa using hc
      simp only [RESERVED_COMMANDS, List.mem_cons, List.not_mem_nil, or_false] at hmem
      rcases hmem with rfl | rfl | rfl | rfl | rfl | rfl | rfl | rfl
      · exact h4 (by decide)
      · exact h4 (by decide)
      · exact h4 (by decide)
      · exact h4 (by decide)
      · exact absurd hflag (by decide)
      · exact absurd hflag (by decide)
      · exact absurd hflag (by decide)
      · exact absurd hflag (by decide)
    have hnm : first ∉ RESERVED_COMMANDS := fun hm => hres (List.elem_eq_true_of_mem hm)
    simp [mainDispatch, hndash, hres, hflag, hne, hnm]
  · have : first ≠ "--" := by
      rcases List.mem_cons.mp h4 with rfl | h4'
      · decide
      rcases List.mem_cons.mp h4' with rfl | h4''
      · decide
      rcases List.mem_cons.mp h4'' with rfl | h4'''
      · decide
      rcases List.mem_cons.mp h4''' with rfl | h4x
      · decide
      · simp at h4x
    have hres : RESERVED_COMMANDS.contains first = true := by
      rcases List.mem_cons.mp h4 with rfl | h4'
      · decide
      rcases List.mem_cons.mp h4' with rfl | h4''
      · decide
      rcases List.mem_cons.mp h4'' with rfl | h4'''
      · decide
      rcases List.mem_cons.mp h4''' with rfl | h4x
      · decide
      · simp at h4x
    have hmem : first ∈ RESERVED_COMMANDS := by simpa using hres
    simp only [mainDispatch, if_neg this]
    rw [if_neg]
    rintro ⟨-, hnm, -⟩
    exact hnm (List.elem_eq_true_of_mem hmem)

/-- Witness for C9: a non-reserved word is forwarded with all its arguments, and `--`
forwards even a reserved name. -/
theorem cli_dispatch_amended_witness :
    mainDispatch ["opencode", "x"] = .remoteCommand ["opencode", "x"]
  ∧ mainDispatch ["--", "connect"] = .remoteCommand ["connect"] :=
  ⟨(cli_dispatch_amended "opencode" ["x"]).2.2.1 (by decide) (by decide) (by decide),
   (cli_dispatch_amended "opencode" ["connect"]).2.1⟩

/-- Scanning a session list none of whose lines carries the wanted session name ends
in the disconnected default. -/
theorem findSession_not_found (sn : String) (L : List String)
    (h : ∀ l ∈ L, (jsSplit l "|").getD 0 "" ≠ sn) :
    findSession sn L = ⟨.disconnected, [], []⟩ := by
  induction L with
  | nil => rfl
  | cons line rest ih =>
    have hl := h line (List.mem_cons_self _ _)
    simp only [findSession, if_neg hl]
    exact ih fun l hml => h l (List.mem_cons_of_mem _ hml)

/-- C10: `getSyncStatus` never raises — it is a total function — and it returns
status disconnected with empty conflicts and the stderr text as single error when
the list command exits non-zero, and status disconnected with empty conflicts and
empty errors when the list succeeds but contains no session with the derived id. -/
theorem getSyncStatus_disconnected (canon : String → String) (lp : String)
    (r : CommandResult) :
    (r.exitCode ≠ 0 → getSyncStatus canon lp r = ⟨.disconnected, [], [r.stderr]⟩)
  ∧ (r.exitCode = 0 →
      (((jsSplit r.stdout "\n").filter (fun l => l ≠ "")).all
        (fun l => (jsSplit l "|").getD 0 "" != getSyncSessionName canon lp)) = true →
      getSyncStatus canon lp r = ⟨.disconnected, [], []⟩) := by
  constructor
  · intro h
    simp [getSyncStatus, h]
  · intro h0 hall
    simp only [getSyncStatus, h0, ne_eq, not_true_eq_false, if_neg, ite_false,
      not_false_eq_true]
    apply findSession_not_found
    intro l hml
    have := List.all_eq_true.mp hall l hml
    simpa using this

/-- Witness for C10: a failed list invocation and an empty successful one. -/
theorem getSyncStatus_disconnected_witness :
    getSyncStatus id "/w" ⟨1, "", "engine down"⟩ = ⟨.disconnected, [], ["engine down"]⟩
  ∧ getSyncStatus id "/w" ⟨0, "", ""⟩ = ⟨.disconnected, [], []⟩ :=
  ⟨(getSyncStatus_disconnected id "/w" ⟨1, "", "engine down"⟩).1 (by decide),
   (getSyncStatus_disconnected id "/w" ⟨0, "", ""⟩).2 rfl (by decide)⟩

/-! ### String and line toolbox for the host-config proofs -/

/-- Rebuilding a string from its characters is the identity. -/
theorem String.mk_data (s : String) : String.mk s.data = s := by cases s; rfl

/-- The block-opening line is never empty. -/
theorem hostLine_ne_empty (al : String) : hostLine al ≠ "" := by
  intro h
  have := congrArg String.data h
  rw [hostLine, String.data_append "Host " al] at this
  simp at this

/-- The empty line is never the block-opening line. -/
theorem empty_ne_hostLine (al : String) : ("" : String) ≠ hostLine al :=
  fun h => hostLine_ne_empty al h.symm

/-- Two block-opening lines agree only for equal aliases. -/
theorem hostLine_inj {a b : String} (h : hostLine a = hostLine b) : a = b := by
  have hd := congrArg String.data h
  rw [hostLine, hostLine, String.data_append, String.data_append] at hd
  exact String.ext (List.append_cancel_left hd)

/-- A block-opening line begins a `Host ` block. -/
theorem isHostStart_hostLine (al : String) : isHostStart (hostLine al) = true := by
  rw [isHostStart, hostLine, String.data_append]
  show leadsWith ['H', 'o', 's', 't', ' '] (['H', 'o', 's', 't', ' '] ++ al.data) = true
  simp [leadsWith]

/-- A line that begins a `Host ` block starts with the letter `H`. -/
theorem isHostStart_head {s : String} (h : isHostStart s = true) :
    ∃ t, s.data = 'H' :: t := by
  rw [isHostStart] at h
  show ∃ t, s.data = 'H' :: t
  rcases hd : s.data with _ | ⟨c, t⟩
  · rw [hd] at h; simp [leadsWith] at h
  · rw [hd] at h
    have : ('H' == c) = true := by
      by_contra hc
      simp only [show ("Host ".data) = ['H','o','s','t',' '] from rfl, leadsWith] at h
      rw [Bool.eq_false_iff.mpr hc] at h
      simp at h
    exact ⟨t, by rw [beq_iff_eq] at this; rw [← this]⟩

/-- A line whose first character is not whitespace is untouched by `trimL` and is not
whitespace-only. -/
theorem trimL_of_head {s : String} {c : Char} {t : List Char} (hd : s.data = c :: t)
    (hc : c.isWhitespace = false) : trimL s = s ∧ isWsOnly s = false := by
  constructor
  · rw [trimL, hd, List.dropWhile_cons, hc]
    simp only [Bool.false_eq_true, if_false]
    rw [← hd, String.mk_data]
  · rw [isWsOnly, hd]
    simp [hc]

/-- Lines that begin a `Host ` block are left-trim-invariant and not whitespace-only. -/
theorem hostStart_nice {s : String} (h : isHostStart s = true) :
    trimL s = s ∧ isWsOnly s = false := by
  rcases isHostStart_head h with ⟨t, hd⟩
  exact trimL_of_head hd (by decide)

/-- `dropWhile` over a concatenation whose first part is all satisfied. -/
theorem dropWhile_append_all {p : String → Bool} {A : List String} (B : List String)
    (h : ∀ x ∈ A, p x = true) :
    (A ++ B).dropWhile p = B.dropWhile p := by
  induction A with
  | nil => rfl
  | cons a as ih =>
    have ha := h a (List.mem_cons_self _ _)
    simp only [List.cons_append, List.dropWhile_cons, ha, if_true]
    exact ih fun x hx => h x (List.mem_cons_of_mem _ hx)

/-- `dropWhile` ignores a final failing element. -/
theorem dropWhile_append_last {p : String → Bool} {x : String} (A : List String)
    (hx : p x = false) :
    (A ++ [x]).dropWhile p = A.dropWhile p ++ [x] := by
  induction A with
  | nil => simp [List.dropWhile_cons, hx]
  | cons a as ih =>
    by_cases ha : p a = true
    · simp only [List.cons_append, List.dropWhile_cons, ha, if_true]
      exact ih
    · rw [Bool.not_eq_true] at ha
      simp [List.dropWhile_cons, ha]

/-- Trailing whitespace-only lines vanish one at a time. -/
theorem dropTrailingWs_append_ws {w : String} (A : List String) (hw : isWsOnly w = true) :
    dropTrailingWs (A ++ [w]) = dropTrailingWs A := by
  rw [dropTrailingWs, dropTrailingWs, List.reverse_append]
  simp [List.dropWhile_cons, hw]

/-- A non-whitespace last line stops the trailing erasure. -/
theorem dropTrailingWs_append_keep {w : String} (A : List String) (hw : isWsOnly w = false) :
    dropTrailingWs (A ++ [w]) = A ++ [w] := by
  rw [dropTrailingWs, List.reverse_append]
  simp [List.dropWhile_cons, hw]

/-- Right-trimming the last line of `mid ++ [w]` only affects `w`. -/
theorem trimLastRight_append (mid : List String) (w : String) :
    trimLastRight (mid ++ [w]) = mid ++ [trimR w] := by
  induction mid with
  | nil => rfl
  | cons m ms ih =>
    rcases hms : ms ++ [w] with _ | ⟨y, ys⟩
    · exact absurd hms (by simp)
    · show trimLastRight (m :: (ms ++ [w])) = _
      rw [hms, trimLastRight]
      rw [← hms, ih]
      rfl

/-- Dropping twice is dropping once. -/
theorem dropWhileChar_idem (p : Char → Bool) (l : List Char) :
    (l.dropWhile p).dropWhile p = l.dropWhile p := by
  induction l with
  | nil => rfl
  | cons c cs ih =>
    by_cases hc : p c = true
    · simp [List.dropWhile_cons, hc, ih]
    · rw [Bool.not_eq_true] at hc
      simp [List.dropWhile_cons, hc]

/-- Left-trimming is idempotent. -/
theorem trimL_trimL (s : String) : trimL (trimL s) = trimL s := by
  rw [trimL, trimL]
  show String.mk (List.dropWhile _ (List.dropWhile _ s.data)) = _
  rw [dropWhileChar_idem]

/-- A line with some non-whitespace character keeps one after left-trimming. -/
theorem isWsOnly_trimL (s : String) (h : isWsOnly s = false) :
    isWsOnly (trimL s) = false := by
  rw [isWsOnly] at h ⊢
  show (s.data.dropWhile _).all _ = false
  by_contra hb
  rw [Bool.not_eq_false] at hb
  rw [← List.takeWhile_append_dropWhile (fun c => c.isWhitespace) s.data,
    List.all_append] at h
  rw [hb] at h
  simp at h

/-- A line with some non-whitespace character keeps one after right-trimming. -/
theorem isWsOnly_trimR (s : String) (h : isWsOnly s = false) :
    isWsOnly (trimR s) = false := by
  rw [isWsOnly] at h ⊢
  show ((s.data.reverse.dropWhile _).reverse).all _ = false
  rw [List.all_reverse]
  by_contra hb
  rw [Bool.not_eq_false] at hb
  rw [← List.all_reverse] at h
  rw [← List.takeWhile_append_dropWhile (fun c => c.isWhitespace) s.data.reverse,
    List.all_append] at h
  rw [hb] at h
  simp at h

/-- A line with some non-whitespace character keeps one after trimming both sides. -/
theorem isWsOnly_trimBoth (s : String) (h : isWsOnly s = false) :
    isWsOnly (trimBoth s) = false :=
  isWsOnly_trimL _ (isWsOnly_trimR _ h)

/-- Fully trimmed lines are left-trim-invariant. -/
theorem trimL_trimBoth (s : String) : trimL (trimBoth s) = trimBoth s :=
  trimL_trimL (trimR s)

/-- A non-whitespace head line survives the trailing erasure in place. -/
theorem dropTrailingWs_cons {x : String} (A : List String) (hx : isWsOnly x = false) :
    dropTrailingWs (x :: A) = x :: dropTrailingWs A := by
  rw [dropTrailingWs, dropTrailingWs]
  rw [show (x :: A).reverse = A.reverse ++ [x] by simp]
  rw [dropWhile_append_last _ hx]
  simp

/-- The head of a `dropWhile` result fails the predicate. -/
theorem dropWhile_head_false {p : String → Bool} {L : List String} {x : String}
    {xs : List String} (h : L.dropWhile p = x :: xs) : p x = false := by
  induction L with
  | nil => cases h
  | cons a as ih =>
    by_cases ha : p a = true
    · rw [List.dropWhile_cons, if_pos ha] at h
      exact ih h
    · rw [Bool.not_eq_true] at ha
      rw [List.dropWhile_cons] at h
      rw [ha] at h
      simp at h
      rw [← h.1]
      exact ha

/-- The head line of a non-degenerate `trimLines` result is non-whitespace and
left-trim-invariant. -/
theorem trimLines_head_nice (L : List String) :
    trimLines L = [""]
  ∨ ∃ x rest, trimLines L = x :: rest ∧ isWsOnly x = false ∧ trimL x = x := by
  rw [trimLines]
  rcases hz : L.dropWhile isWsOnly with _ | ⟨z, zs⟩
  · left; rfl
  · have hznws : isWsOnly z = false := dropWhile_head_false hz
    rw [dropTrailingWs_cons _ hznws]
    rcases hdt : dropTrailingWs zs with _ | ⟨y, ys⟩
    · right
      exact ⟨trimBoth z, [], rfl, isWsOnly_trimBoth _ hznws, trimL_trimBoth z⟩
    · right
      refine ⟨trimL z, trimLastRight (y :: ys), rfl, isWsOnly_trimL _ hznws, trimL_trimL z⟩

/-- Whole-text trim of a text made of whitespace-only lines, a nice first line, an
arbitrary middle, a right-trim-invariant non-whitespace last line and a final
newline: only the leading whitespace lines and the final newline disappear. -/
theorem trimLines_shape (pre : List String) (x : String) (mid : List String) (w : String)
    (hpre : ∀ y ∈ pre, isWsOnly y = true)
    (hx1 : isWsOnly x = false) (hx2 : trimL x = x)
    (hw1 : isWsOnly w = false) (hw2 : trimR w = w) :
    trimLines (pre ++ x :: (mid ++ [w, ""])) = x :: (mid ++ [w]) := by
  unfold trimLines
  have h1 : (pre ++ x :: (mid ++ [w, ""])).dropWhile isWsOnly = x :: (mid ++ [w, ""]) := by
    rw [dropWhile_append_all _ hpre, List.dropWhile_cons, hx1]
    simp
  rw [h1]
  have h2 : dropTrailingWs (x :: (mid ++ [w, ""])) = x :: (mid ++ [w]) := by
    rw [dropTrailingWs_cons _ hx1]
    rw [show mid ++ [w, ""] = (mid ++ [w]) ++ [""] by simp]
    rw [dropTrailingWs_append_ws _ (by decide)]
    rw [dropTrailingWs_append_keep _ hw1]
  rw [h2]
  rcases hms : mid ++ [w] with _ | ⟨y, ys⟩
  · exact absurd hms (by simp)
  · show trimL x :: trimLastRight (y :: ys) = x :: y :: ys
    rw [← hms, hx2, trimLastRight_append, hw2]

/-- Every line kept by the spec-rule removal was a line of the input. -/
theorem specGo_subset {al : String} (m : Bool) (L : List String) :
    ∀ x ∈ specGo al m L, x ∈ L := by
  induction L generalizing m with
  | nil => intro x hx; cases m <;> simp [specGo] at hx
  | cons a as ih =>
    intro x hx
    cases m with
    | true =>
      simp only [specGo] at hx
      by_cases h1 : isHostStart a = true
      · rw [if_pos h1] at hx
        by_cases h2 : a = hostLine al
        · rw [if_pos h2] at hx
          exact List.mem_cons_of_mem _ (ih true x hx)
        · rw [if_neg h2] at hx
          rcases List.mem_cons.mp hx with rfl | hx
          · exact List.mem_cons_self _ _
          · exact List.mem_cons_of_mem _ (ih false x hx)
      · rw [if_neg h1] at hx
        exact List.mem_cons_of_mem _ (ih true x hx)
    | false =>
      simp only [specGo] at hx
      by_cases h2 : a = hostLine al
      · rw [if_pos h2] at hx
        exact List.mem_cons_of_mem _ (ih true x hx)
      · rw [if_neg h2] at hx
        rcases List.mem_cons.mp hx with rfl | hx
        · exact List.mem_cons_self _ _
        · exact List.mem_cons_of_mem _ (ih false x hx)

/-- The spec-rule removal for an alias never keeps that alias's block-opening line. -/
theorem hostLine_not_mem_specGo {al : String} (m : Bool) (L : List String) :
    hostLine al ∉ specGo al m L := by
  induction L generalizing m with
  | nil => cases m <;> simp [specGo]
  | cons a as ih =>
    intro hx
    cases m with
    | true =>
      simp only [specGo] at hx
      by_cases h1 : isHostStart a = true
      · rw [if_pos h1] at hx
        by_cases h2 : a = hostLine al
        · rw [if_pos h2] at hx
          exact ih true hx
        · rw [if_neg h2] at hx
          rcases List.mem_cons.mp hx with heq | hx
          · exact h2 heq.symm
          · exact ih false hx
      · rw [if_neg h1] at hx
        exact ih true hx
    | false =>
      simp only [specGo] at hx
      by_cases h2 : a = hostLine al
      · rw [if_pos h2] at hx
        exact ih true hx
      · rw [if_neg h2] at hx
        rcases List.mem_cons.mp hx with heq | hx
        · exact h2 heq.symm
        · exact ih false hx

/-- Removal that reaches the end of the line list inside a block leaves the final
newline; against a declarative tail the two mode functions agree. -/
theorem stripGo_append_hostStart {al : String} (y : String) (ys : List String)
    (hy : isHostStart y = true) (m : Bool) (X : List String) :
    stripGo al m (X ++ y :: ys) = specGo al m X ++ stripGo al false (y :: ys) := by
  induction X generalizing m with
  | nil =>
    cases m with
    | true =>
      simp only [List.nil_append, specGo]
      rw [stripGo, if_pos hy, stripGo]
    | false => simp [specGo]
  | cons a X' ih =>
    have hne : X' ++ y :: ys ≠ [] := by simp
    cases m with
    | true =>
      by_cases h1 : isHostStart a = true
      · by_cases h2 : a = hostLine al
        · rw [List.cons_append, stripGo, if_pos h1, if_pos ⟨h2, hne⟩]
          rw [specGo, if_pos h1, if_pos h2]
          exact ih true
        · rw [List.cons_append, stripGo, if_pos h1,
            if_neg (fun hc => h2 (And.left hc))]
          rw [specGo, if_pos h1, if_neg h2, List.cons_append]
          rw [ih false]
      · rw [List.cons_append, stripGo, if_neg h1, specGo, if_neg h1]
        exact ih true
    | false =>
      by_cases h2 : a = hostLine al
      · rw [List.cons_append, stripGo, if_pos ⟨h2, hne⟩, specGo, if_pos h2]
        exact ih true
      · rw [List.cons_append, stripGo, if_neg (fun hc => h2 (And.left hc)),
          specGo, if_neg h2, List.cons_append]
        rw [ih false]

/-- On newline-terminated content the regex removal agrees with the spec-rule removal
followed by the final newline. -/
theorem stripGo_append_empty {al : String} (m : Bool) (L : List String) :
    stripGo al m (L ++ [""]) = specGo al m L ++ [""] := by
  induction L generalizing m with
  | nil =>
    cases m with
    | true =>
      simp only [List.nil_append, specGo]
      rw [stripGo, if_neg (by decide : ¬ isHostStart "" = true), stripGo]
    | false =>
      simp only [List.nil_append, specGo]
      rw [stripGo, if_neg (fun hc => empty_ne_hostLine al (And.left hc)), stripGo]
  | cons a L' ih =>
    have hne : L' ++ [""] ≠ [] := by simp
    cases m with
    | true =>
      by_cases h1 : isHostStart a = true
      · by_cases h2 : a = hostLine al
        · rw [List.cons_append, stripGo, if_pos h1, if_pos ⟨h2, hne⟩,
            specGo, if_pos h1, if_pos h2]
          exact ih true
        · rw [List.cons_append, stripGo, if_pos h1,
            if_neg (fun hc => h2 (And.left hc)),
            specGo, if_pos h1, if_neg h2, List.cons_append]
          rw [ih false]
      · rw [List.cons_append, stripGo, if_neg h1, specGo, if_neg h1]
        exact ih true
    | false =>
      by_cases h2 : a = hostLine al
      · rw [List.cons_append, stripGo, if_pos ⟨h2, hne⟩, specGo, if_pos h2]
        exact ih true
      · rw [List.cons_append, stripGo, if_neg (fun hc => h2 (And.left hc)),
          specGo, if_neg h2, List.cons_append]
        rw [ih false]

/-- The regex removal keeps a text free of the alias's block-opening line intact. -/
theorem stripGo_false_no_hostLine {al : String} (L : List String)
    (h : ∀ l ∈ L, l ≠ hostLine al) : stripGo al false L = L := by
  induction L with
  | nil => rfl
  | cons a as ih =>
    have ha := h a (List.mem_cons_self _ _)
    rw [stripGo, if_neg (fun hc => ha (And.left hc))]
    rw [ih fun l hl => h l (List.mem_cons_of_mem _ hl)]

/-- Block mode consumes any run of lines that never opens a new `Host ` block. -/
theorem specGo_true_nil {al : String} (L : List String)
    (h : ∀ l ∈ L, isHostStart l = false) : specGo al true L = [] := by
  induction L with
  | nil => rfl
  | cons a as ih =>
    have ha := h a (List.mem_cons_self _ _)
    rw [specGo, if_neg (by rw [ha]; simp)]
    exact ih fun l hl => h l (List.mem_cons_of_mem _ hl)

/-- The head of a spec-rule removal result: in block mode it opens a `Host ` block; in
normal mode it is the input's head or opens a `Host ` block. -/
theorem specGo_head {al : String} (L : List String) :
    (specGo al true L = [] ∨ ∃ z zs, specGo al true L = z :: zs ∧ isHostStart z = true)
  ∧ (specGo al false L = [] ∨ ∃ z zs, specGo al false L = z :: zs ∧
      (L.head? = some z ∨ isHostStart z = true)) := by
  induction L with
  | nil => simp [specGo]
  | cons a as ih =>
    constructor
    · by_cases h1 : isHostStart a = true
      · by_cases h2 : a = hostLine al
        · rw [specGo, if_pos h1, if_pos h2]
          exact ih.1
        · right
          exact ⟨a, specGo al false as, by rw [specGo, if_pos h1, if_neg h2], h1⟩
      · rw [specGo, if_neg h1]
        exact ih.1
    · by_cases h2 : a = hostLine al
      · rw [specGo, if_pos h2]
        rcases ih.1 with he | ⟨z, zs, hz, hhs⟩
        · exact Or.inl he
        · exact Or.inr ⟨z, zs, hz, Or.inr hhs⟩
      · right
        exact ⟨a, specGo al false as, by rw [specGo, if_neg h2], Or.inl rfl⟩

/-- Appending the empty string on the right changes nothing. -/
theorem str_append_empty (s : String) : s ++ "" = s :=
  String.ext (by rw [String.data_append]; simp)

/-- Appending the empty string on the left changes nothing. -/
theorem str_empty_append (s : String) : "" ++ s = s :=
  String.ext (by rw [String.data_append]; simp)

/-- Every body line of a generated host block starts with a space. -/
theorem gbBody_head_space (host : String) (port : Nat) (user : String)
    (kp : List String) : ∀ l ∈ gbBody host port user kp, ∃ t, l.data = ' ' :: t := by
  intro l hl
  simp only [gbBody, List.mem_append, List.mem_cons, List.mem_map,
    List.not_mem_nil, or_false] at hl
  rcases hl with (((rfl | rfl | rfl) | ⟨p, -, rfl⟩) | rfl | rfl | rfl | rfl) | rfl
  · exact ⟨_, by rw [String.data_append]; rfl⟩
  · exact ⟨_, by rw [String.data_append]; rfl⟩
  · exact ⟨_, by rw [String.data_append]; rfl⟩
  · exact ⟨_, by rw [String.data_append]; rfl⟩
  · exact ⟨_, rfl⟩
  · exact ⟨_, rfl⟩
  · exact ⟨_, rfl⟩
  · exact ⟨_, rfl⟩
  · exact ⟨_, rfl⟩

/-- A line starting with a space never opens a `Host ` block. -/
theorem space_not_hostStart {l : String} {t : List Char} (hd : l.data = ' ' :: t) :
    isHostStart l = false := by
  rw [isHostStart, hd]
  show leadsWith ['H', 'o', 's', 't', ' '] (' ' :: t) = false
  simp [leadsWith]

/-- A line starting with a space is no block-opening line. -/
theorem space_ne_hostLine {l : String} {t : List Char} (hd : l.data = ' ' :: t)
    (al2 : String) : l ≠ hostLine al2 := by
  intro heq
  have := congrArg String.data heq
  rw [hd, hostLine, String.data_append] at this
  have h5 : ("Host " : String).data = 'H' :: ['o', 's', 't', ' '] := rfl
  rw [h5] at this
  cases this

/-- Body lines of a generated block never open a block. -/
theorem gbBody_not_hostStart (host : String) (port : Nat) (user : String)
    (kp : List String) : ∀ l ∈ gbBody host port user kp, isHostStart l = false := by
  intro l hl
  rcases gbBody_head_space host port user kp l hl with ⟨t, hd⟩
  exact space_not_hostStart hd

/-- Body lines of a generated block are no block-opening lines. -/
theorem gbBody_ne_hostLine (host : String) (port : Nat) (user : String)
    (kp : List String) : ∀ l ∈ gbBody host port user kp, ∀ al2, l ≠ hostLine al2 := by
  intro l hl al2
  rcases gbBody_head_space host port user kp l hl with ⟨t, hd⟩
  exact space_ne_hostLine hd al2

/-- The generated block splits as `Host` line, body front, keep-alive last line, and
trailing newline. -/
theorem gbBody_decomp (host : String) (port : Nat) (user : String) (kp : List String) :
    gbBody host port user kp =
      (["  HostName " ++ host, "  Port " ++ toString port, "  User " ++ user]
        ++ kp.map (fun p => "  IdentityFile " ++ p)
        ++ ["  ForwardAgent no", "  ForwardX11 no", "  StrictHostKeyChecking accept-new",
            "  ServerAliveInterval 5"]) ++ ["  ServerAliveCountMax 3"] := by
  simp [gbBody, List.append_assoc]

/-- Gluing a text that continues with an empty line: the newline of the first text
and the empty line merge into a plain line break. -/
theorem catLines_cons_empty (A B : List String) (hA : A ≠ []) :
    catLines A ("" :: B) = A ++ B := by
  induction A with
  | nil => exact absurd rfl hA
  | cons a as ih =>
    rcases has : as with _ | ⟨a', as'⟩
    · show catLines [a] ("" :: B) = [a] ++ B
      rw [catLines, str_append_empty]
      rfl
    · rw [← has]
      have hne : as ≠ [] := by rw [has]; simp
      show catLines (a :: as) ("" :: B) = (a :: as) ++ B
      rcases has2 : as with _ | ⟨b', bs'⟩
      · exact absurd has2 hne
      · rw [catLines.eq_def]
        simp only [has2]
        rw [← has2, ih (by rw [has2]; simp)]
        rw [has2]
        rfl

/-- Gluing `"\n\n" ++ text` onto a text: two blank lines are inserted. -/
theorem catLines_two_blank (y : String) (ys : List String) :
    catLines ["", "", ""] (y :: ys) = "" :: "" :: y :: ys := by
  simp [catLines, str_empty_append]

/-- Closed form of `writeHostConfig`: the configuration becomes the stripped and
trimmed previous content — dropped entirely when trimming empties it — followed by a
blank separator line and the freshly generated block. -/
theorem writeHostConfig_formula (al host : String) (port : Nat) (user : String)
    (kp : List String) (S : List String) :
    writeHostConfig al host port user kp S =
      (if trimLines (stripBlocks al S) = [""] then []
       else trimLines (stripBlocks al S) ++ [""])
      ++ generateHostConfig al host port user kp := by
  have hsal1 : isWsOnly "  ServerAliveCountMax 3" = false := by decide
  have hsal2 : trimR "  ServerAliveCountMax 3" = "  ServerAliveCountMax 3" := by decide
  obtain ⟨hlT, hlW⟩ := hostStart_nice (isHostStart_hostLine al)
  have hBL : generateHostConfig al host port user kp
      = hostLine al :: ((["  HostName " ++ host, "  Port " ++ toString port,
          "  User " ++ user]
        ++ kp.map (fun p => "  IdentityFile " ++ p)
        ++ ["  ForwardAgent no", "  ForwardX11 no", "  StrictHostKeyChecking accept-new",
            "  ServerAliveInterval 5"]) ++ ["  ServerAliveCountMax 3", ""]) := by
    rw [generateHostConfig, gbBody_decomp]
    simp [List.append_assoc]
  show trimLines (catLines (trimLines (stripBlocks al S))
      (catLines ["", "", ""] (generateHostConfig al host port user kp))) ++ [""] = _
  by_cases hT : trimLines (stripBlocks al S) = [""]
  · rw [if_pos hT, hT, hBL, catLines_two_blank]
    rw [catLines_cons_empty [""] _ (by simp)]
    rw [show ([""] ++ ("" :: hostLine al :: ((["  HostName " ++ host,
        "  Port " ++ toString port, "  User " ++ user]
        ++ kp.map (fun p => "  IdentityFile " ++ p)
        ++ ["  ForwardAgent no", "  ForwardX11 no", "  StrictHostKeyChecking accept-new",
            "  ServerAliveInterval 5"]) ++ ["  ServerAliveCountMax 3", ""])))
      = ["", ""] ++ hostLine al :: ((["  HostName " ++ host,
        "  Port " ++ toString port, "  User " ++ user]
        ++ kp.map (fun p => "  IdentityFile " ++ p)
        ++ ["  ForwardAgent no", "  ForwardX11 no", "  StrictHostKeyChecking accept-new",
            "  ServerAliveInterval 5"])
        ++ ["  ServerAliveCountMax 3", ""]) by simp [List.append_assoc]]
    rw [trimLines_shape ["", ""] (hostLine al) _ _ (by decide) hlW hlT hsal1 hsal2]
    simp [List.append_assoc]
  · rcases trimLines_head_nice (stripBlocks al S) with h | ⟨x, rest, hx, hx1, hx2⟩
    · exact absurd h hT
    rw [if_neg hT, hx, hBL, catLines_two_blank]
    rw [catLines_cons_empty (x :: rest) _ (by simp)]
    rw [show ((x :: rest) ++ ("" :: hostLine al :: ((["  HostName " ++ host,
        "  Port " ++ toString port, "  User " ++ user]
        ++ kp.map (fun p => "  IdentityFile " ++ p)
        ++ ["  ForwardAgent no", "  ForwardX11 no", "  StrictHostKeyChecking accept-new",
            "  ServerAliveInterval 5"]) ++ ["  ServerAliveCountMax 3", ""])))
      = [] ++ x :: ((rest ++ "" :: hostLine al :: (["  HostName " ++ host,
        "  Port " ++ toString port, "  User " ++ user]
        ++ kp.map (fun p => "  IdentityFile " ++ p)
        ++ ["  ForwardAgent no", "  ForwardX11 no", "  StrictHostKeyChecking accept-new",
            "  ServerAliveInterval 5"]))
        ++ ["  ServerAliveCountMax 3", ""]) by simp [List.append_assoc]]
    rw [trimLines_shape [] x _ _ (by simp) hx1 hx2 hsal1 hsal2]
    simp [List.append_assoc]

/-- C3 (amended): `remove(alias)` leaves a missing file missing, never deletes an
existing file, and on newline-terminated content it performs exactly the spec's
block-removal followed by whole-text whitespace trimming and a restored final
newline — except that when the removal leaves only whitespace the write is skipped
and the previous content (block included) survives unchanged. -/
theorem removeHostConfig_spec (al : String) (L : List String) :
    removeHostConfig al none = none
  ∧ (∀ L2 : List String, removeHostConfig al (some L2) ≠ none)
  ∧ removeHostConfig al (some (L ++ [""])) =
      some (if trimLines (specRemove al L ++ [""]) = [""] then L ++ [""]
            else trimLines (specRemove al L ++ [""]) ++ [""]) := by
  refine ⟨rfl, fun L2 => ?_, ?_⟩
  · simp only [removeHostConfig]
    split_ifs <;> simp
  · have hs : stripBlocks al (L ++ [""]) = specRemove al L ++ [""] :=
      stripGo_append_empty false L
    simp only [removeHostConfig, hs]
    by_cases h : trimLines (specRemove al L ++ [""]) = [""]
    · rw [if_pos h, if_pos h]
    · rw [if_neg h, if_neg h]

/-- C3 counterexample: on a file whose whole content is the alias's block, `remove`
does not delete the block — the skipped write leaves the file unchanged, `Host a`
line and all. -/
theorem removeHostConfig_counterexample :
    removeHostConfig "a" (some ["Host a", "  HostName x", ""])
      = some ["Host a", "  HostName x", ""]
  ∧ hostLine "a" ∈ ["Host a", "  HostName x", ""] := by
  refine ⟨by decide, by decide⟩

/-- A non-empty or nicely-headed list stays so under a spec-rule removal. -/
theorem specGo_output_nice {al : String} (X : List String)
    (hX : X = [] ∨ ∃ x xs, X = x :: xs ∧ isWsOnly x = false ∧ trimL x = x) :
    specGo al false X = []
  ∨ ∃ e es, specGo al false X = e :: es ∧ isWsOnly e = false ∧ trimL e = e := by
  rcases (@specGo_head al X).2 with h | ⟨z, zs, hz, hzh⟩
  · exact Or.inl h
  · right
    refine ⟨z, zs, hz, ?_⟩
    rcases hzh with hh | hh
    · rcases hX with rfl | ⟨x, xs, rfl, hx1, hx2⟩
      · cases hh
      · rw [List.head?_cons] at hh
        injection hh with hh
        rw [← hh]
        exact ⟨hx1, hx2⟩
    · obtain ⟨ht, hw⟩ := hostStart_nice hh
      exact ⟨hw, ht⟩

/-- Trimming a text that ends in a freshly generated block only erases the trailing
newline, provided the preceding lines are empty or nicely headed. -/
theorem trimLines_block_tail (al host : String) (port : Nat) (user : String)
    (kp : List String) (D : List String)
    (hD : D = [] ∨ ∃ d ds, D = d :: ds ∧ isWsOnly d = false ∧ trimL d = d) :
    trimLines (D ++ generateHostConfig al host port user kp)
      = D ++ (hostLine al :: gbBody host port user kp) := by
  have hsal1 : isWsOnly "  ServerAliveCountMax 3" = false := by decide
  have hsal2 : trimR "  ServerAliveCountMax 3" = "  ServerAliveCountMax 3" := by decide
  obtain ⟨hlT, hlW⟩ := hostStart_nice (isHostStart_hostLine al)
  have hBL : generateHostConfig al host port user kp
      = hostLine al :: ((["  HostName " ++ host, "  Port " ++ toString port,
          "  User " ++ user]
        ++ kp.map (fun p => "  IdentityFile " ++ p)
        ++ ["  ForwardAgent no", "  ForwardX11 no", "  StrictHostKeyChecking accept-new",
            "  ServerAliveInterval 5"]) ++ ["  ServerAliveCountMax 3", ""]) := by
    rw [generateHostConfig, gbBody_decomp]
    simp [List.append_assoc]
  rcases hD with rfl | ⟨d, ds, rfl, hd1, hd2⟩
  · rw [List.nil_append, hBL]
    rw [show hostLine al :: ((["  HostName " ++ host, "  Port " ++ toString port,
          "  User " ++ user]
        ++ kp.map (fun p => "  IdentityFile " ++ p)
        ++ ["  ForwardAgent no", "  ForwardX11 no", "  StrictHostKeyChecking accept-new",
            "  ServerAliveInterval 5"]) ++ ["  ServerAliveCountMax 3", ""])
      = [] ++ hostLine al :: ((["  HostName " ++ host, "  Port " ++ toString port,
          "  User " ++ user]
        ++ kp.map (fun p => "  IdentityFile " ++ p)
        ++ ["  ForwardAgent no", "  ForwardX11 no", "  StrictHostKeyChecking accept-new",
            "  ServerAliveInterval 5"]) ++ ["  ServerAliveCountMax 3", ""]) by rfl]
    rw [trimLines_shape [] (hostLine al) _ _ (by simp) hlW hlT hsal1 hsal2]
    rw [gbBody_decomp]
    simp [List.append_assoc]
  · rw [hBL]
    rw [show (d :: ds) ++ (hostLine al :: ((["  HostName " ++ host,
          "  Port " ++ toString port, "  User " ++ user]
        ++ kp.map (fun p => "  IdentityFile " ++ p)
        ++ ["  ForwardAgent no", "  ForwardX11 no", "  StrictHostKeyChecking accept-new",
            "  ServerAliveInterval 5"]) ++ ["  ServerAliveCountMax 3", ""]))
      = [] ++ d :: ((ds ++ hostLine al :: (["  HostName " ++ host,
          "  Port " ++ toString port, "  User " ++ user]
        ++ kp.map (fun p => "  IdentityFile " ++ p)
        ++ ["  ForwardAgent no", "  ForwardX11 no", "  StrictHostKeyChecking accept-new",
            "  ServerAliveInterval 5"]))
        ++ ["  ServerAliveCountMax 3", ""]) by simp [List.append_assoc]]
    rw [trimLines_shape [] d _ _ (by simp) hd1 hd2 hsal1 hsal2]
    rw [gbBody_decomp]
    simp [List.append_assoc]

/-- No line of a generated block equals a different alias's block-opening line. -/
theorem genBlock_no_other_hostLine {al al2 : String} (h : al2 ≠ al) (host : String)
    (port : Nat) (user : String) (kp : List String) :
    ∀ l ∈ generateHostConfig al host port user kp, l ≠ hostLine al2 := by
  intro l hl
  rw [generateHostConfig] at hl
  rcases List.mem_cons.mp hl with rfl | hl
  · intro he
    exact h (hostLine_inj he).symm
  · rcases List.mem_append.mp hl with hl | hl
    · exact gbBody_ne_hostLine _ _ _ _ _ hl al2
    · simp only [List.mem_singleton] at hl
      subst hl
      exact empty_ne_hostLine al2

/-- After the opening line, nothing in a generated block opens a `Host ` block. -/
theorem genBlock_tail_not_hostStart (host : String) (port : Nat) (user : String)
    (kp : List String) :
    ∀ l ∈ gbBody host port user kp ++ [""], isHostStart l = false := by
  intro l hl
  rcases List.mem_append.mp hl with hl | hl
  · exact gbBody_not_hostStart _ _ _ _ _ hl
  · simp only [List.mem_singleton] at hl
    subst hl
    decide

/-- Stripping an alias's blocks from its own freshly generated block followed by a
foreign block erases exactly the own block. -/
theorem strip_self_then_other {a b : String} (hab : a ≠ b) (hostA : String)
    (portA : Nat) (userA : String) (kA : List String) (hostB : String) (portB : Nat)
    (userB : String) (kB : List String) :
    stripGo a false (generateHostConfig a hostA portA userA kA
      ++ generateHostConfig b hostB portB userB kB)
    = generateHostConfig b hostB portB userB kB := by
  rw [show generateHostConfig a hostA portA userA kA
      ++ generateHostConfig b hostB portB userB kB
    = (generateHostConfig a hostA portA userA kA)
      ++ (hostLine b :: (gbBody hostB portB userB kB ++ [""])) from rfl]
  rw [stripGo_append_hostStart (hostLine b) _ (isHostStart_hostLine b) false _]
  have h1 : specGo a false (generateHostConfig a hostA portA userA kA) = [] := by
    rw [show generateHostConfig a hostA portA userA kA
        = hostLine a :: (gbBody hostA portA userA kA ++ [""]) from rfl]
    rw [specGo, if_pos rfl]
    exact specGo_true_nil _ (genBlock_tail_not_hostStart hostA portA userA kA)
  rw [h1, List.nil_append]
  rw [← show generateHostConfig b hostB portB userB kB
      = hostLine b :: (gbBody hostB portB userB kB ++ [""]) from rfl]
  exact stripGo_false_no_hostLine _ (genBlock_no_other_hostLine hab hostB portB userB kB)

/-- The residue of the write–write–rewrite sequence contains no block-opening line of
either alias. -/
theorem residualLines_no_hostLine (a b : String) (S : List String) :
    hostLine a ∉ residualLines a b S ∧ hostLine b ∉ residualLines a b S := by
  rw [residualLines]
  split_ifs with h
  · simp
  · constructor
    · exact hostLine_not_mem_specGo false _
    · intro hm
      exact @hostLine_not_mem_specGo b false _ (specGo_subset false _ _ hm)

/-- Closed form of writing a block for `a`, then `b`, then `a` again: the residue of
the initial text followed by exactly the `b` block and the fresh `a` block. -/
theorem writeThrice_eq (a b hostA userA hostB userB hostA2 userA2 : String)
    (portA portB portA2 : Nat) (kA kB kA2 : List String) (S : List String)
    (hab : a ≠ b) :
    writeHostConfig a hostA2 portA2 userA2 kA2
      (writeHostConfig b hostB portB userB kB
        (writeHostConfig a hostA portA userA kA S))
    = residualLines a b S
      ++ generateHostConfig b hostB portB userB kB
      ++ generateHostConfig a hostA2 portA2 userA2 kA2 := by
  have hba : b ≠ a := fun h => hab h.symm
  rw [writeHostConfig_formula a hostA portA userA kA S]
  by_cases hT1 : trimLines (stripBlocks a S) = [""]
  · rw [if_pos hT1, List.nil_append]
    rw [writeHostConfig_formula b hostB portB userB kB _]
    have hstrip1 : stripBlocks b (generateHostConfig a hostA portA userA kA)
        = generateHostConfig a hostA portA userA kA :=
      stripGo_false_no_hostLine _ (genBlock_no_other_hostLine hba hostA portA userA kA)
    rw [hstrip1]
    have hT2 : trimLines (generateHostConfig a hostA portA userA kA)
        = hostLine a :: gbBody hostA portA userA kA := by
      simpa using trimLines_block_tail a hostA portA userA kA [] (Or.inl rfl)
    rw [hT2]
    have hT2ne : (hostLine a :: gbBody hostA portA userA kA) ≠ [""] := by
      intro h
      rw [List.cons_eq_cons] at h
      exact hostLine_ne_empty a h.1
    rw [if_neg hT2ne]
    have hS2 : ((hostLine a :: gbBody hostA portA userA kA) ++ [""])
        ++ generateHostConfig b hostB portB userB kB
      = generateHostConfig a hostA portA userA kA
        ++ generateHostConfig b hostB portB userB kB := by
      rw [show generateHostConfig a hostA portA userA kA
          = hostLine a :: (gbBody hostA portA userA kA ++ [""]) from rfl]
      simp [List.append_assoc]
    rw [hS2]
    rw [writeHostConfig_formula a hostA2 portA2 userA2 kA2 _]
    have hstrip2 : stripBlocks a (generateHostConfig a hostA portA userA kA
        ++ generateHostConfig b hostB portB userB kB)
      = generateHostConfig b hostB portB userB kB :=
      strip_self_then_other hab hostA portA userA kA hostB portB userB kB
    rw [hstrip2]
    have hT3 : trimLines (generateHostConfig b hostB portB userB kB)
        = hostLine b :: gbBody hostB portB userB kB := by
      simpa using trimLines_block_tail b hostB portB userB kB [] (Or.inl rfl)
    rw [hT3]
    have hT3ne : (hostLine b :: gbBody hostB portB userB kB) ≠ [""] := by
      intro h
      rw [List.cons_eq_cons] at h
      exact hostLine_ne_empty b h.1
    rw [if_neg hT3ne]
    rw [residualLines, if_pos hT1, List.nil_append]
    rw [show generateHostConfig b hostB portB userB kB
        = hostLine b :: (gbBody hostB portB userB kB ++ [""]) from rfl]
    simp [List.append_assoc]
  · rw [if_neg hT1]
    rw [writeHostConfig_formula b hostB portB userB kB _]
    have hsplit1 : stripBlocks b ((trimLines (stripBlocks a S) ++ [""])
        ++ generateHostConfig a hostA portA userA kA)
      = specGo b false (trimLines (stripBlocks a S) ++ [""])
        ++ generateHostConfig a hostA portA userA kA := by
      rw [show generateHostConfig a hostA portA userA kA
          = hostLine a :: (gbBody hostA portA userA kA ++ [""]) from rfl]
      rw [stripBlocks, stripGo_append_hostStart (hostLine a) _ (isHostStart_hostLine a)
        false _]
      congr 1
      rw [← show generateHostConfig a hostA portA userA kA
          = hostLine a :: (gbBody hostA portA userA kA ++ [""]) from rfl]
      exact stripGo_false_no_hostLine _ (genBlock_no_other_hostLine hba hostA portA userA kA)
    rw [hsplit1]
    have hDnice : specGo b false (trimLines (stripBlocks a S) ++ [""]) = []
        ∨ ∃ d ds, specGo b false (trimLines (stripBlocks a S) ++ [""]) = d :: ds
            ∧ isWsOnly d = false ∧ trimL d = d := by
      apply specGo_output_nice
      rcases trimLines_head_nice (stripBlocks a S) with h | ⟨x, r, hx, h1, h2⟩
      · exact absurd h hT1
      · right
        exact ⟨x, r ++ [""], by rw [hx]; rfl, h1, h2⟩
    rw [trimLines_block_tail a hostA portA userA kA _ hDnice]
    have hT2ne : specGo b false (trimLines (stripBlocks a S) ++ [""])
        ++ (hostLine a :: gbBody hostA portA userA kA) ≠ [""] := by
      intro h
      have hmem : hostLine a ∈ specGo b false (trimLines (stripBlocks a S) ++ [""])
          ++ (hostLine a :: gbBody hostA portA userA kA) :=
        List.mem_append_right _ (List.mem_cons_self _ _)
      rw [h] at hmem
      simp only [List.mem_singleton] at hmem
      exact hostLine_ne_empty a hmem
    rw [if_neg hT2ne]
    have hS2 : ((specGo b false (trimLines (stripBlocks a S) ++ [""])
          ++ (hostLine a :: gbBody hostA portA userA kA)) ++ [""])
        ++ generateHostConfig b hostB portB userB kB
      = specGo b false (trimLines (stripBlocks a S) ++ [""])
        ++ (generateHostConfig a hostA portA userA kA
          ++ generateHostConfig b hostB portB userB kB) := by
      rw [show generateHostConfig a hostA portA userA kA
          = hostLine a :: (gbBody hostA portA userA kA ++ [""]) from rfl]
      simp [List.append_assoc]
    rw [hS2]
    rw [writeHostConfig_formula a hostA2 portA2 userA2 kA2 _]
    have hsplit2 : stripBlocks a (specGo b false (trimLines (stripBlocks a S) ++ [""])
        ++ (generateHostConfig a hostA portA userA kA
          ++ generateHostConfig b hostB portB userB kB))
      = specGo a false (specGo b false (trimLines (stripBlocks a S) ++ [""]))
        ++ generateHostConfig b hostB portB userB kB := by
      rw [show generateHostConfig a hostA portA userA kA
            ++ generateHostConfig b hostB portB userB kB
          = hostLine a :: ((gbBody hostA portA userA kA ++ [""])
            ++ generateHostConfig b hostB portB userB kB) by
        rw [show generateHostConfig a hostA portA userA kA
            = hostLine a :: (gbBody hostA portA userA kA ++ [""]) from rfl]
        simp [List.append_assoc]]
      rw [stripBlocks, stripGo_append_hostStart (hostLine a) _ (isHostStart_hostLine a)
        false _]
      congr 1
      rw [← show generateHostConfig a hostA portA userA kA
            ++ generateHostConfig b hostB portB userB kB
          = hostLine a :: ((gbBody hostA portA userA kA ++ [""])
            ++ generateHostConfig b hostB portB userB kB) by
        rw [show generateHostConfig a hostA portA userA kA
            = hostLine a :: (gbBody hostA portA userA kA ++ [""]) from rfl]
        simp [List.append_assoc]]
      exact strip_self_then_other hab hostA portA userA kA hostB portB userB kB
    rw [hsplit2]
    have hEnice := @specGo_output_nice a
      (specGo b false (trimLines (stripBlocks a S) ++ [""])) hDnice
    rw [trimLines_block_tail b hostB portB userB kB _ hEnice]
    have hT3ne : specGo a false (specGo b false (trimLines (stripBlocks a S) ++ [""]))
        ++ (hostLine b :: gbBody hostB portB userB kB) ≠ [""] := by
      intro h
      have hmem : hostLine b ∈ specGo a false (specGo b false
            (trimLines (stripBlocks a S) ++ [""]))
          ++ (hostLine b :: gbBody hostB portB userB kB) :=
        List.mem_append_right _ (List.mem_cons_self _ _)
      rw [h] at hmem
      simp only [List.mem_singleton] at hmem
      exact hostLine_ne_empty b hmem
    rw [if_neg hT3ne]
    rw [residualLines, if_neg hT1]
    rw [show generateHostConfig b hostB portB userB kB
        = hostLine b :: (gbBody hostB portB userB kB ++ [""]) from rfl]
    simp only [specRemove]
    simp [List.append_assoc]

/-- A generated block contains its own opening line exactly once. -/
theorem count_genBlock_self (al host : String) (port : Nat) (user : String)
    (kp : List String) :
    (generateHostConfig al host port user kp).count (hostLine al) = 1 := by
  rw [show generateHostConfig al host port user kp
      = hostLine al :: (gbBody host port user kp ++ [""]) from rfl]
  rw [List.count_cons_self]
  have hnm : hostLine al ∉ gbBody host port user kp ++ [""] := by
    intro hm
    rcases List.mem_append.mp hm with hm | hm
    · exact gbBody_ne_hostLine _ _ _ _ _ hm al rfl
    · simp only [List.mem_singleton] at hm
      exact hostLine_ne_empty al hm
  rw [List.count_eq_zero.mpr hnm]

/-- A generated block contains no other alias's opening line. -/
theorem notMem_genBlock_other {al al2 : String} (h : al2 ≠ al) (host : String)
    (port : Nat) (user : String) (kp : List String) :
    hostLine al2 ∉ generateHostConfig al host port user kp :=
  fun hm => genBlock_no_other_hostLine h host port user kp _ hm rfl

/-- C2 (amended): writing a host block for alias `a`, then `b`, then re-writing `a`
yields exactly the initial text's residue — the code's strip-and-trim pass for `a`
followed by the spec-rule removal of both aliases' blocks, which preserves every
unrelated prior line except edge whitespace erased by trimming (and lines that
trimming first turns into `Host` lines) — followed by exactly one unchanged block
for `b` and exactly one block for `a` with the latest content. -/
theorem writeHostConfig_sequence (a b hostA userA hostB userB hostA2 userA2 : String)
    (portA portB portA2 : Nat) (kA kB kA2 : List String) (S : List String)
    (hab : a ≠ b) :
    writeHostConfig a hostA2 portA2 userA2 kA2
      (writeHostConfig b hostB portB userB kB
        (writeHostConfig a hostA portA userA kA S))
    = residualLines a b S
      ++ generateHostConfig b hostB portB userB kB
      ++ generateHostConfig a hostA2 portA2 userA2 kA2
  ∧ (residualLines a b S ++ generateHostConfig b hostB portB userB kB
      ++ generateHostConfig a hostA2 portA2 userA2 kA2).count (hostLine a) = 1
  ∧ (residualLines a b S ++ generateHostConfig b hostB portB userB kB
      ++ generateHostConfig a hostA2 portA2 userA2 kA2).count (hostLine b) = 1 := by
  have hba : b ≠ a := fun h => hab h.symm
  refine ⟨writeThrice_eq a b hostA userA hostB userB hostA2 userA2 portA portB portA2
    kA kB kA2 S hab, ?_, ?_⟩
  · rw [List.count_append, List.count_append]
    rw [List.count_eq_zero.mpr (residualLines_no_hostLine a b S).1]
    rw [List.count_eq_zero.mpr (notMem_genBlock_other hab hostB portB userB kB)]
    rw [count_genBlock_self]
  · rw [List.count_append, List.count_append]
    rw [List.count_eq_zero.mpr (residualLines_no_hostLine a b S).2]
    rw [List.count_eq_zero.mpr (notMem_genBlock_other hba hostA2 portA2 userA2 kA2)]
    rw [count_genBlock_self]

/-- Witness for C2 on a concrete initial text and endpoints. -/
theorem writeHostConfig_sequence_witness :
    writeHostConfig "a" "h2" 2 "u2" ["/k2"]
      (writeHostConfig "b" "hb" 2222 "ub" []
        (writeHostConfig "a" "h" 22 "u" [] ["# keep me", ""]))
    = residualLines "a" "b" ["# keep me", ""]
      ++ generateHostConfig "b" "hb" 2222 "ub" []
      ++ generateHostConfig "a" "h2" 2 "u2" ["/k2"]
  ∧ (residualLines "a" "b" ["# keep me", ""] ++ generateHostConfig "b" "hb" 2222 "ub" []
      ++ generateHostConfig "a" "h2" 2 "u2" ["/k2"]).count (hostLine "a") = 1
  ∧ (residualLines "a" "b" ["# keep me", ""] ++ generateHostConfig "b" "hb" 2222 "ub" []
      ++ generateHostConfig "a" "h2" 2 "u2" ["/k2"]).count (hostLine "b") = 1 :=
  writeHostConfig_sequence "a" "b" "h" "u" "hb" "ub" "h2" "u2" 22 2222 2 [] [] ["/k2"]
    ["# keep me", ""] (by decide)

/-- C2 counterexample: the unrelated prior line `"  # note"` — no `Host` line of
either alias — is not preserved verbatim by the write–write–rewrite sequence: the
first write's whole-text trim strips its leading whitespace. -/
theorem writeHostConfig_counterexample :
    "  # note" ≠ hostLine "a"
  ∧ "  # note" ≠ hostLine "b"
  ∧ isHostStart "  # note" = false
  ∧ "  # note" ∉ writeHostConfig "a" "h2" 2 "u2" []
      (writeHostConfig "b" "hb" 22 "ub" []
        (writeHostConfig "a" "h" 22 "u" [] ["  # note", ""])) := by
  refine ⟨by decide, by decide, by decide, by decide⟩

/-- Witness for C3 on a concrete newline-terminated configuration. -/
theorem removeHostConfig_spec_witness :
    removeHostConfig "a" (some (["# c", "Host a", "  HostName x"] ++ [""]))
      = some (if trimLines (specRemove "a" ["# c", "Host a", "  HostName x"] ++ [""])
                = [""]
              then ["# c", "Host a", "  HostName x"] ++ [""]
              else trimLines (specRemove "a" ["# c", "Host a", "  HostName x"] ++ [""])
                ++ [""]) :=
  (removeHostConfig_spec "a" ["# c", "Host a", "  HostName x"]).2.2
